import Mathlib

set_option maxRecDepth 40000

/-!
Verification of the discord scheduled-summary bot core against its
natural-language specification.  JavaScript strings are modelled as
`List Char` (`JStr`); each definition below is a direct shallow embedding
of the corresponding function in the repository sources
(`worker-polling.js` and the unnamed scheduler/worker parts).
-/

/-- JavaScript string, modelled as a list of characters. -/
abbrev JStr := List Char

/-- Whitespace predicate used by `String.prototype.trim` (common ASCII subset). -/
def isWS (c : Char) : Bool :=
  c = ' ' || c = '\t' || c = '\n' || c = '\r' || c = '\x0b' || c = '\x0c'

/-- JavaScript `s.trim()`: strip leading and trailing whitespace. -/
def jsTrim (s : JStr) : JStr :=
  List.rdropWhile isWS (s.dropWhile isWS)

/-- Helper for `content.split('\n')`: walks the string accumulating the
current piece in reverse. -/
def splitLinesAux : List Char → JStr → List JStr
  | [], acc => [acc.reverse]
  | c :: rest, acc =>
    if c = '\n' then acc.reverse :: splitLinesAux rest []
    else splitLinesAux rest (c :: acc)

/-- JavaScript `content.split('\n')`. -/
def splitLines (s : JStr) : List JStr := splitLinesAux s []

/-- Join a list of lines back with `'\n'` separators (inverse of `splitLines`). -/
def joinNL : List JStr → JStr
  | [] => []
  | [c] => c
  | c :: c2 :: rest => c ++ '\n' :: joinNL (c2 :: rest)

/-- The three-character ellipsis marker `'...'` appended on truncation. -/
def ellipsis : JStr := ['.', '.', '.']

-- ### basic lemmas about the string model

theorem length_dropWhile_le (p : Char → Bool) (l : List Char) :
    (l.dropWhile p).length ≤ l.length := by
  induction l with
  | nil => simp
  | cons c rest ih =>
    by_cases h : p c
    · simp [List.dropWhile, h]
      omega
    · simp [List.dropWhile, h]

theorem jsTrim_length_le (s : JStr) : (jsTrim s).length ≤ s.length := by
  unfold jsTrim List.rdropWhile
  calc ((s.dropWhile isWS).reverse.dropWhile isWS).reverse.length
      = ((s.dropWhile isWS).reverse.dropWhile isWS).length := by
        rw [List.length_reverse]
    _ ≤ (s.dropWhile isWS).reverse.length := length_dropWhile_le _ _
    _ = (s.dropWhile isWS).length := by rw [List.length_reverse]
    _ ≤ s.length := length_dropWhile_le _ _

theorem dropWhile_head_false (p : Char → Bool) (l : List Char) :
    ∀ a, (l.dropWhile p).head? = some a → p a = false := by
  intro a ha
  have hne : l.dropWhile p ≠ [] := by
    intro h
    rw [h] at ha
    simp at ha
  have hhead := List.head_dropWhile_not p l hne
  rw [List.head?_eq_head hne, Option.some_inj] at ha
  rwa [ha] at hhead

theorem dropWhile_eq_self_of_head (p : Char → Bool) (l : List Char)
    (h : ∀ a, l.head? = some a → p a = false) : l.dropWhile p = l := by
  cases l with
  | nil => rfl
  | cons c rest => simp [List.dropWhile, h c rfl]

theorem getLast?_dropWhile (p : Char → Bool) (l : List Char)
    (h : l.dropWhile p ≠ []) : (l.dropWhile p).getLast? = l.getLast? := by
  induction l with
  | nil => simp at h
  | cons c rest ih =>
    by_cases hc : p c
    · simp only [List.dropWhile, hc] at h ⊢
      have hrest : rest ≠ [] := by
        intro hr
        rw [hr] at h
        simp at h
      rw [ih h]
      cases rest with
      | nil => exact absurd rfl hrest
      | cons r rest' => rw [List.getLast?_cons_cons]
    · simp [List.dropWhile, hc]

theorem jsTrim_idem (s : JStr) : jsTrim (jsTrim s) = jsTrim s := by
  unfold jsTrim
  have hB : (List.rdropWhile isWS (s.dropWhile isWS)).dropWhile isWS
      = List.rdropWhile isWS (s.dropWhile isWS) := by
    apply dropWhile_eq_self_of_head
    intro a ha
    unfold List.rdropWhile at ha
    rw [List.head?_reverse] at ha
    by_cases hX : (s.dropWhile isWS).reverse.dropWhile isWS = []
    · rw [hX] at ha
      simp at ha
    · rw [getLast?_dropWhile _ _ hX, List.getLast?_reverse] at ha
      exact dropWhile_head_false isWS s a ha
  rw [hB, List.rdropWhile_idempotent]

/-- Decidable check that a line has neither leading nor trailing whitespace. -/
def noEdgeWS (l : JStr) : Bool :=
  (match l.head? with | some a => !isWS a | none => true) &&
  (match l.getLast? with | some a => !isWS a | none => true)

theorem noEdgeWS_head (l : JStr) (h : noEdgeWS l = true) :
    ∀ a, l.head? = some a → isWS a = false := by
  intro a ha
  unfold noEdgeWS at h
  rw [ha] at h
  rw [Bool.and_eq_true] at h
  simpa using h.1

theorem noEdgeWS_getLast (l : JStr) (h : noEdgeWS l = true) :
    ∀ a, l.getLast? = some a → isWS a = false := by
  intro a ha
  unfold noEdgeWS at h
  rw [ha] at h
  rw [Bool.and_eq_true] at h
  simpa using h.2

theorem jsTrim_eq_self (l : JStr) (h : noEdgeWS l = true) : jsTrim l = l := by
  unfold jsTrim
  rw [dropWhile_eq_self_of_head _ _ (noEdgeWS_head l h)]
  rw [List.rdropWhile_eq_self_iff]
  intro hl
  have := noEdgeWS_getLast l h (l.getLast hl) (List.getLast?_eq_getLast l hl)
  simp [this]

theorem noEdgeWS_glue (cur l : JStr) (hcur : cur ≠ []) (hl : l ≠ [])
    (h1 : noEdgeWS cur = true) (h2 : noEdgeWS l = true) :
    noEdgeWS (cur ++ '\n' :: l) = true := by
  unfold noEdgeWS
  rw [Bool.and_eq_true]
  constructor
  · rw [List.head?_append_of_ne_nil cur hcur]
    cases hc : cur.head? with
    | none => simp
    | some a => simpa using noEdgeWS_head cur h1 a hc
  · have : ('\n' :: l) ≠ [] := by simp
    rw [show cur ++ '\n' :: l = cur ++ ('\n' :: l) from rfl,
      List.getLast?_append_of_ne_nil cur this]
    cases l with
    | nil => exact absurd rfl hl
    | cons x l' =>
      rw [List.getLast?_cons_cons]
      cases hc : (x :: l').getLast? with
      | none => simp
      | some a => simpa using noEdgeWS_getLast _ h2 a hc

-- ### split / join round trip

theorem splitLinesAux_ne_nil (s : List Char) (acc : JStr) : splitLinesAux s acc ≠ [] := by
  induction s generalizing acc with
  | nil => simp [splitLinesAux]
  | cons c rest ih =>
    by_cases hc : c = '\n' <;> simp [splitLinesAux, hc, ih]

theorem joinNL_cons_of_ne_nil (x : JStr) (L : List JStr) (h : L ≠ []) :
    joinNL (x :: L) = x ++ '\n' :: joinNL L := by
  cases L with
  | nil => exact absurd rfl h
  | cons y L' => rfl

theorem joinNL_splitLinesAux (s : List Char) (acc : JStr) :
    joinNL (splitLinesAux s acc) = acc.reverse ++ s := by
  induction s generalizing acc with
  | nil => simp [splitLinesAux, joinNL]
  | cons c rest ih =>
    simp only [splitLinesAux]
    by_cases hc : c = '\n'
    · rw [if_pos hc, joinNL_cons_of_ne_nil _ _ (splitLinesAux_ne_nil rest []), ih]
      simp [hc]
    · rw [if_neg hc, ih]
      simp

theorem joinNL_splitLines (s : JStr) : joinNL (splitLines s) = s := by
  unfold splitLines
  rw [joinNL_splitLinesAux]
  rfl

theorem splitLinesAux_mem_length_le (s : List Char) (acc : JStr) :
    ∀ l ∈ splitLinesAux s acc, l.length ≤ acc.length + s.length := by
  induction s generalizing acc with
  | nil =>
    intro l hl
    simp [splitLinesAux] at hl
    simp [hl]
  | cons c rest ih =>
    intro l hl
    by_cases hc : c = '\n'
    · simp only [splitLinesAux, if_pos hc, List.mem_cons] at hl
      rcases hl with h | h
      · simp [h]
      · have := ih [] l h
        simp at this
        simp
        omega
    · simp only [splitLinesAux, if_neg hc] at hl
      have := ih (c :: acc) l hl
      simp at this ⊢
      omega

theorem splitLines_mem_length_le (s : JStr) :
    ∀ l ∈ splitLines s, l.length ≤ s.length := by
  intro l hl
  have := splitLinesAux_mem_length_le s [] l hl
  simpa using this

-- ### splitMessage (worker-polling.js lines 171-201, unnamed part_000 lines 516-548)

/-- The per-line truncation inside `splitMessage`:
`line.length > maxLength ? line.substring(0, maxLength - 3) + '...' : line`. -/
def safeLine (maxLength : Nat) (line : JStr) : JStr :=
  if maxLength < line.length then line.take (maxLength - 3) ++ ellipsis else line

/-- The chunk-accumulation loop of `splitMessage`: `cur` is `currentChunk`,
the list argument is the remaining lines.  Mirrors the JS loop body and the
final `if (currentChunk) chunks.push(currentChunk.trim())`. -/
def chunkLines (maxLength : Nat) : JStr → List JStr → List JStr
  | cur, [] => if cur.isEmpty then [] else [jsTrim cur]
  | cur, line :: rest =>
    let s := safeLine maxLength line
    if maxLength < (cur ++ '\n' :: s).length then
      (if cur.isEmpty then [] else [jsTrim cur]) ++ chunkLines maxLength s rest
    else
      chunkLines maxLength (cur ++ (if cur.isEmpty then [] else ['\n']) ++ s) rest

/-- `splitMessage(content, maxLength = 2000)` from the repository. -/
def splitMessage (content : JStr) (maxLength : Nat := 2000) : List JStr :=
  if content.length ≤ maxLength then [content]
  else chunkLines maxLength [] (splitLines content)

theorem safeLine_length_le (maxLength : Nat) (hm : 3 ≤ maxLength) (line : JStr) :
    (safeLine maxLength line).length ≤ maxLength := by
  unfold safeLine
  by_cases h : maxLength < line.length
  · rw [if_pos h]
    simp only [List.length_append, List.length_take]
    unfold ellipsis
    simp only [List.length_cons, List.length_nil]
    omega
  · rw [if_neg h]
    omega

theorem chunkLines_length_le (maxLength : Nat) (hm : 3 ≤ maxLength) :
    ∀ (lines : List JStr) (cur : JStr), cur.length ≤ maxLength →
      ∀ c ∈ chunkLines maxLength cur lines, c.length ≤ maxLength := by
  intro lines
  induction lines with
  | nil =>
    intro cur hcur c hc
    unfold chunkLines at hc
    by_cases he : cur.isEmpty
    · simp [he] at hc
    · simp [he] at hc
      rw [hc]
      exact le_trans (jsTrim_length_le cur) hcur
  | cons line rest ih =>
    intro cur hcur c hc
    unfold chunkLines at hc
    set s := safeLine maxLength line with hs
    by_cases hlen : maxLength < (cur ++ '\n' :: s).length
    · rw [if_pos hlen] at hc
      rw [List.mem_append] at hc
      rcases hc with hc | hc
      · by_cases he : cur.isEmpty
        · simp [he] at hc
        · simp [he] at hc
          rw [hc]
          exact le_trans (jsTrim_length_le cur) hcur
      · exact ih s (safeLine_length_le maxLength hm line) c hc
    · rw [if_neg hlen] at hc
      refine ih _ ?_ c hc
      simp only [List.length_append, List.length_cons] at hlen ⊢
      by_cases he : cur.isEmpty
      · simp [he]
        omega
      · simp [he]
        omega

theorem chunkLines_chunks_trimmed (maxLength : Nat) :
    ∀ (lines : List JStr) (cur : JStr),
      ∀ c ∈ chunkLines maxLength cur lines, ∃ x, c = jsTrim x := by
  intro lines
  induction lines with
  | nil =>
    intro cur c hc
    unfold chunkLines at hc
    by_cases he : cur.isEmpty
    · simp [he] at hc
    · simp [he] at hc
      exact ⟨cur, hc⟩
  | cons line rest ih =>
    intro cur c hc
    unfold chunkLines at hc
    by_cases hlen : maxLength < (cur ++ '\n' :: safeLine maxLength line).length
    · rw [if_pos hlen] at hc
      rw [List.mem_append] at hc
      rcases hc with hc | hc
      · by_cases he : cur.isEmpty
        · simp [he] at hc
        · simp [he] at hc
          exact ⟨cur, hc⟩
      · exact ih _ c hc
    · rw [if_neg hlen] at hc
      exact ih _ c hc

theorem isEmpty_false_of_ne_nil (l : JStr) (h : l ≠ []) : l.isEmpty = false := by
  cases l with
  | nil => exact absurd rfl h
  | cons c rest => rfl

theorem jsTrim_mem_chunkLines_of_full (maxLength : Nat) (h1 : 1 ≤ maxLength) :
    ∀ (lines : List JStr) (cur : JStr), maxLength ≤ cur.length →
      jsTrim cur ∈ chunkLines maxLength cur lines := by
  intro lines cur hcur
  have hne : cur ≠ [] := by
    intro h
    rw [h] at hcur
    simp at hcur
    omega
  cases lines with
  | nil =>
    unfold chunkLines
    simp [isEmpty_false_of_ne_nil cur hne]
  | cons line rest =>
    unfold chunkLines
    have hlen : maxLength < (cur ++ '\n' :: safeLine maxLength line).length := by
      simp only [List.length_append, List.length_cons]
      omega
    rw [if_pos hlen]
    simp [isEmpty_false_of_ne_nil cur hne]

theorem overlong_line_chunk (maxLength : Nat) (hm : 3 ≤ maxLength) :
    ∀ (lines : List JStr) (cur line : JStr), line ∈ lines → maxLength < line.length →
      jsTrim (line.take (maxLength - 3) ++ ellipsis) ∈ chunkLines maxLength cur lines := by
  intro lines
  induction lines with
  | nil =>
    intro cur line h
    simp at h
  | cons l rest ih =>
    intro cur line hmem hlong
    rcases List.mem_cons.mp hmem with h | h
    · subst h
      unfold chunkLines
      have hs : safeLine maxLength line = line.take (maxLength - 3) ++ ellipsis := by
        unfold safeLine
        rw [if_pos hlong]
      have hslen : (safeLine maxLength line).length = maxLength := by
        rw [hs]
        simp only [List.length_append, List.length_take]
        unfold ellipsis
        simp only [List.length_cons, List.length_nil]
        omega
      have hlen : maxLength < (cur ++ '\n' :: safeLine maxLength line).length := by
        simp only [List.length_append, List.length_cons]
        omega
      rw [if_pos hlen]
      apply List.mem_append_right
      rw [← hs]
      exact jsTrim_mem_chunkLines_of_full maxLength (by omega) rest _ (le_of_eq hslen.symm)
    · unfold chunkLines
      by_cases hlen : maxLength < (cur ++ '\n' :: safeLine maxLength l).length
      · rw [if_pos hlen]
        exact List.mem_append_right _ (ih _ _ h hlong)
      · rw [if_neg hlen]
        exact ih _ _ h hlong

theorem chunkLines_ne_nil (maxLength : Nat) :
    ∀ (lines : List JStr) (cur : JStr), cur ≠ [] →
      chunkLines maxLength cur lines ≠ [] := by
  intro lines
  induction lines with
  | nil =>
    intro cur h
    unfold chunkLines
    simp [isEmpty_false_of_ne_nil cur h]
  | cons l rest ih =>
    intro cur h
    unfold chunkLines
    by_cases hlen : maxLength < (cur ++ '\n' :: safeLine maxLength l).length
    · rw [if_pos hlen]
      simp [isEmpty_false_of_ne_nil cur h]
    · rw [if_neg hlen]
      apply ih
      simp [h]

theorem joinNL_glue (a b : JStr) (rest : List JStr) :
    joinNL ((a ++ '\n' :: b) :: rest) = a ++ '\n' :: joinNL (b :: rest) := by
  cases rest with
  | nil => rfl
  | cons r rest' =>
    rw [joinNL_cons_of_ne_nil _ _ (by simp), joinNL_cons_of_ne_nil b _ (by simp)]
    simp

theorem chunkLines_join (maxLength : Nat) :
    ∀ (lines : List JStr) (cur : JStr),
      (∀ l ∈ lines, l ≠ [] ∧ l.length ≤ maxLength ∧ noEdgeWS l = true) →
      noEdgeWS cur = true →
      joinNL (chunkLines maxLength cur lines) =
        (if cur.isEmpty then joinNL lines else joinNL (cur :: lines)) := by
  intro lines
  induction lines with
  | nil =>
    intro cur hlines hcur
    unfold chunkLines
    by_cases he : cur.isEmpty
    · simp [he, joinNL]
    · rw [if_neg he, if_neg he, jsTrim_eq_self cur hcur]
  | cons l rest ih =>
    intro cur hlines hcur
    obtain ⟨hlne, hllen, hlws⟩ := hlines l (List.mem_cons_self l rest)
    have hrest : ∀ x ∈ rest, x ≠ [] ∧ x.length ≤ maxLength ∧ noEdgeWS x = true :=
      fun x hx => hlines x (List.mem_cons_of_mem l hx)
    unfold chunkLines
    have hs : safeLine maxLength l = l := by
      unfold safeLine
      rw [if_neg (by omega)]
    rw [hs]
    by_cases he : cur.isEmpty
    · have hcurnil : cur = [] := by
        cases cur with
        | nil => rfl
        | cons c cs => simp at he
      subst hcurnil
      rw [if_pos he]
      by_cases hlen : maxLength < (([] : JStr) ++ '\n' :: l).length
      · rw [if_pos hlen]
        rw [if_pos he, List.nil_append]
        rw [ih l hrest hlws]
        rw [if_neg (by simp [isEmpty_false_of_ne_nil l hlne])]
      · rw [if_neg hlen]
        rw [if_pos he]
        simp only [List.nil_append]
        rw [ih l hrest hlws]
        rw [if_neg (by simp [isEmpty_false_of_ne_nil l hlne])]
        rw [if_pos he]
    · have hcne : cur ≠ [] := by
        cases cur with
        | nil => simp at he
        | cons c cs => simp
      rw [if_neg he]
      by_cases hlen : maxLength < (cur ++ '\n' :: l).length
      · rw [if_pos hlen]
        rw [if_neg he]
        rw [jsTrim_eq_self cur hcur]
        rw [List.singleton_append]
        rw [joinNL_cons_of_ne_nil _ _ (chunkLines_ne_nil maxLength rest l hlne)]
        rw [ih l hrest hlws]
        rw [if_neg (by simp [isEmpty_false_of_ne_nil l hlne])]
        rfl
      · rw [if_neg hlen]
        rw [if_neg he]
        have hglue : cur ++ ['\n'] ++ l = cur ++ '\n' :: l := by simp
        rw [hglue]
        have hws : noEdgeWS (cur ++ '\n' :: l) = true :=
          noEdgeWS_glue cur l hcne hlne hcur hlws
        rw [ih _ hrest hws]
        rw [if_neg (by simp [isEmpty_false_of_ne_nil _ (by simp [hcne] : cur ++ '\n' :: l ≠ [])])]
        rw [joinNL_glue]
        rw [if_neg he]
        rfl

-- ### symbolic evaluation helpers for concrete inputs

theorem splitLinesAux_no_nl (xs : List Char) :
    (∀ c ∈ xs, c ≠ '\n') → ∀ acc, splitLinesAux xs acc = [acc.reverse ++ xs] := by
  induction xs with
  | nil =>
    intro _ acc
    simp [splitLinesAux]
  | cons c rest ih =>
    intro h acc
    have hc : c ≠ '\n' := h c (List.mem_cons_self c rest)
    simp only [splitLinesAux, if_neg hc]
    rw [ih (fun x hx => h x (List.mem_cons_of_mem c hx)) (c :: acc)]
    simp

theorem splitLines_no_nl (s : JStr) (h : ∀ c ∈ s, c ≠ '\n') : splitLines s = [s] := by
  unfold splitLines
  rw [splitLinesAux_no_nl s h []]
  rfl

theorem splitLinesAux_split_at_nl (xs : List Char) (rest : List Char) :
    (∀ c ∈ xs, c ≠ '\n') → ∀ acc,
      splitLinesAux (xs ++ '\n' :: rest) acc
        = (acc.reverse ++ xs) :: splitLinesAux rest [] := by
  induction xs with
  | nil =>
    intro _ acc
    simp [splitLinesAux]
  | cons c t ih =>
    intro h acc
    have hc : c ≠ '\n' := h c (List.mem_cons_self c t)
    simp only [List.cons_append, splitLinesAux, if_neg hc]
    rw [show t.append ('\n' :: rest) = t ++ '\n' :: rest from rfl,
      ih (fun x hx => h x (List.mem_cons_of_mem c hx)) (c :: acc)]
    simp

theorem splitLines_split_at_nl (xs rest : List Char) (h : ∀ c ∈ xs, c ≠ '\n') :
    splitLines (xs ++ '\n' :: rest) = xs :: splitLinesAux rest [] := by
  unfold splitLines
  rw [splitLinesAux_split_at_nl xs rest h []]
  rfl

theorem noEdgeWS_of_ends (l : JStr) (a b : Char) (h1 : l.head? = some a)
    (h2 : l.getLast? = some b) (ha : isWS a = false) (hb : isWS b = false) :
    noEdgeWS l = true := by
  unfold noEdgeWS
  rw [h1, h2, Bool.and_eq_true]
  constructor
  · simp [ha]
  · simp [hb]

theorem head?_replicate_succ (n : Nat) (c : Char) :
    (List.replicate (n+1) c).head? = some c := by
  rw [List.replicate_succ]
  rfl

theorem getLast?_replicate_succ (n : Nat) (c : Char) :
    (List.replicate (n+1) c).getLast? = some c := by
  rw [List.replicate_succ', List.getLast?_append_of_ne_nil _ (by simp)]
  rfl

theorem noEdgeWS_replicate_succ (n : Nat) (c : Char) (hc : isWS c = false) :
    noEdgeWS (List.replicate (n+1) c) = true :=
  noEdgeWS_of_ends _ c c (head?_replicate_succ n c) (getLast?_replicate_succ n c) hc hc

theorem noEdgeWS_replicate_ellipsis (n : Nat) (c : Char) (hc : isWS c = false) :
    noEdgeWS (List.replicate (n+1) c ++ ellipsis) = true := by
  apply noEdgeWS_of_ends _ c '.'
  · rw [List.head?_append_of_ne_nil _ (by simp), head?_replicate_succ]
  · rw [List.getLast?_append_of_ne_nil _ (by simp [ellipsis])]
    rfl
  · exact hc
  · decide

theorem no_nl_replicate (n : Nat) (c : Char) (hc : c ≠ '\n') :
    ∀ x ∈ List.replicate n c, x ≠ '\n' := by
  intro x hx
  rw [List.eq_of_mem_replicate hx]
  exact hc

/-- Evaluation of `splitMessage` on a single over-long line without newlines:
the line is truncated to its first 1997 characters plus the ellipsis and the
resulting single chunk is trimmed. -/
theorem splitMessage_single_overlong (s : JStr) (h : 2000 < s.length)
    (hnl : ∀ c ∈ s, c ≠ '\n') :
    splitMessage s = [jsTrim (s.take 1997 ++ ellipsis)] := by
  unfold splitMessage
  rw [if_neg (by omega)]
  rw [splitLines_no_nl s hnl]
  unfold chunkLines
  have hsafe : safeLine 2000 s = s.take 1997 ++ ellipsis := by
    unfold safeLine
    rw [if_pos h]
  have hsafelen : (safeLine 2000 s).length = 2000 := by
    rw [hsafe]
    simp only [List.length_append, List.length_take]
    unfold ellipsis
    simp only [List.length_cons, List.length_nil]
    omega
  rw [if_pos (by simp only [List.nil_append, List.length_cons]; omega)]
  rw [if_pos (by rfl)]
  rw [List.nil_append]
  unfold chunkLines
  rw [if_neg (by
    rw [isEmpty_false_of_ne_nil]
    · simp
    · intro hcontra
      rw [hcontra] at hsafelen
      simp at hsafelen)]
  rw [hsafe]

theorem jsTrim_cons_ws (c : Char) (hc : isWS c = true) (X : JStr) :
    jsTrim (c :: X) = jsTrim X := by
  unfold jsTrim
  congr 1
  simp [List.dropWhile, hc]

-- ### concrete inputs for claims C1, C9, C10

/-- A single 2001-character line beginning with a space (no newlines). -/
def c1input : JStr := ' ' :: List.replicate 2000 'a'

theorem c1_no_nl : ∀ c ∈ c1input, c ≠ '\n' := by
  intro c hc
  unfold c1input at hc
  rcases List.mem_cons.mp hc with h | h
  · subst h
    decide
  · rw [List.eq_of_mem_replicate h]
    decide

theorem c1_take : c1input.take 1997 = ' ' :: List.replicate 1996 'a' := by
  unfold c1input
  rw [List.take_cons (by norm_num), List.take_replicate]
  norm_num

theorem c1_trim : jsTrim (c1input.take 1997 ++ ellipsis)
    = List.replicate 1996 'a' ++ ellipsis := by
  rw [c1_take, List.cons_append, jsTrim_cons_ws ' ' (by decide)]
  exact jsTrim_eq_self _ (noEdgeWS_replicate_ellipsis 1995 'a' (by decide))

/-- C1 — COUNTEREXAMPLE.  `c1input` is a single line of length 2001 > 2000,
yet the string `line.take 1997 ++ '...'` claimed to be emitted as a chunk is
not among the chunks: `splitMessage` trims each chunk, dropping the leading
space of the truncated line. -/
theorem claim1_counterexample :
    c1input ∈ splitLines c1input ∧ 2000 < c1input.length ∧
      (c1input.take 1997 ++ ellipsis) ∉ splitMessage c1input := by
  refine ⟨?_, by simp [c1input], ?_⟩
  · rw [splitLines_no_nl c1input c1_no_nl]
    simp
  · rw [splitMessage_single_overlong c1input (by simp [c1input]) c1_no_nl, c1_trim]
    intro hmem
    rw [List.mem_singleton] at hmem
    have hlen := congrArg List.length hmem
    rw [c1_take] at hlen
    simp [ellipsis] at hlen

/-- C1 (amended): every chunk produced by `splitMessage` has length at most
2000, and any single line whose own length exceeds 2000 is hard-truncated to
its first 1997 characters plus an ellipsis marker and emitted — after the
splitter's whitespace trim — as its own chunk. -/
theorem claim1_main (content : JStr) :
    (∀ c ∈ splitMessage content, c.length ≤ 2000) ∧
    (∀ line ∈ splitLines content, 2000 < line.length →
      jsTrim (line.take 1997 ++ ellipsis) ∈ splitMessage content) := by
  constructor
  · intro c hc
    unfold splitMessage at hc
    by_cases h : content.length ≤ 2000
    · rw [if_pos h, List.mem_singleton] at hc
      rw [hc]
      exact h
    · rw [if_neg h] at hc
      exact chunkLines_length_le 2000 (by norm_num) (splitLines content) [] (by simp) c hc
  · intro line hline hlong
    have hlen := splitLines_mem_length_le content line hline
    unfold splitMessage
    rw [if_neg (by omega)]
    have hover := overlong_line_chunk 2000 (by norm_num) (splitLines content) [] line hline hlong
    rw [show (2000:Nat) - 3 = 1997 from rfl] at hover
    exact hover

/-- Witness for the amended C1 at the concrete input `c1input`. -/
theorem claim1_witness :
    jsTrim (c1input.take 1997 ++ ellipsis) ∈ splitMessage c1input :=
  (claim1_main c1input).2 c1input
    (by rw [splitLines_no_nl c1input c1_no_nl]; simp)
    (by simp [c1input])

/-- Input for the C9 counterexample: a 2000-character line, an empty line,
then a short line. -/
def c9input : JStr := List.replicate 2000 'a' ++ '\n' :: '\n' :: ['b']

theorem c9_lines : splitLines c9input = [List.replicate 2000 'a', [], ['b']] := by
  unfold c9input
  rw [splitLines_split_at_nl _ _ (no_nl_replicate 2000 'a' (by decide))]
  congr 1

theorem chunkLines_nil_eval (maxLength : Nat) (cur : JStr) :
    chunkLines maxLength cur [] = if cur.isEmpty then [] else [jsTrim cur] := rfl

theorem chunkLines_cons_eval (maxLength : Nat) (cur line : JStr) (rest : List JStr) :
    chunkLines maxLength cur (line :: rest) =
      if maxLength < (cur ++ '\n' :: safeLine maxLength line).length then
        (if cur.isEmpty then [] else [jsTrim cur])
          ++ chunkLines maxLength (safeLine maxLength line) rest
      else
        chunkLines maxLength
          (cur ++ (if cur.isEmpty then [] else ['\n']) ++ safeLine maxLength line) rest := rfl

theorem jsTrim_replicate_a : jsTrim (List.replicate 2000 'a') = List.replicate 2000 'a' :=
  jsTrim_eq_self _ (noEdgeWS_replicate_succ 1999 'a' (by decide))

theorem c9_chunks : splitMessage c9input = [List.replicate 2000 'a', ['b']] := by
  unfold splitMessage
  rw [if_neg (by simp [c9input])]
  rw [c9_lines]
  rw [chunkLines_cons_eval]
  have hsA : safeLine 2000 (List.replicate 2000 'a') = List.replicate 2000 'a' := by
    unfold safeLine
    rw [if_neg (by simp)]
  rw [hsA]
  rw [if_pos (by simp)]
  rw [if_pos (by rfl), List.nil_append]
  rw [chunkLines_cons_eval]
  rw [show safeLine 2000 ([] : JStr) = [] from rfl]
  rw [if_pos (by simp)]
  rw [if_neg (by simp), jsTrim_replicate_a]
  rw [chunkLines_cons_eval]
  rw [show safeLine 2000 (['b'] : JStr) = ['b'] from rfl]
  rw [if_neg (by simp)]
  rw [if_pos (by rfl)]
  rfl

/-- C9 — COUNTEREXAMPLE.  For `c9input` no line exceeds the 2000 maximum
(line lengths are 2000, 0, 1), yet re-joining the chunks with newlines does
not reproduce the input: the empty line at the chunk boundary is lost to the
splitter's whitespace trim. -/
theorem claim9_counterexample :
    joinNL (splitMessage c9input) ≠ c9input ∧
      (splitLines c9input).map List.length = [2000, 0, 1] := by
  constructor
  · rw [c9_chunks]
    intro h
    have hlen := congrArg List.length h
    simp [joinNL, c9input] at hlen
  · rw [c9_lines]
    simp

/-- C9 (amended): if every line of the content is nonempty, of length at
most 2000, and free of leading/trailing whitespace, then concatenating the
chunks of `splitMessage` with newlines restored reproduces the content
exactly; in general the whitespace trim applied to each chunk may drop
whitespace (including empty lines) at chunk boundaries. -/
theorem claim9_main (content : JStr)
    (hlines : ∀ l ∈ splitLines content, l ≠ [] ∧ l.length ≤ 2000 ∧ noEdgeWS l = true) :
    joinNL (splitMessage content) = content := by
  unfold splitMessage
  by_cases h : content.length ≤ 2000
  · rw [if_pos h]
    rfl
  · rw [if_neg h]
    rw [chunkLines_join 2000 (splitLines content) [] hlines (by rfl)]
    rw [if_pos (by rfl)]
    exact joinNL_splitLines content

/-- Witness input for the amended C9: two clean lines, total length 2002. -/
def c9winput : JStr := List.replicate 2000 'x' ++ '\n' :: ['y']

theorem c9w_lines : splitLines c9winput = [List.replicate 2000 'x', ['y']] := by
  unfold c9winput
  rw [splitLines_split_at_nl _ _ (no_nl_replicate 2000 'x' (by decide))]
  congr 1

/-- Witness for the amended C9 at the concrete input `c9winput`. -/
theorem claim9_witness : joinNL (splitMessage c9winput) = c9winput := by
  apply claim9_main
  rw [c9w_lines]
  intro l hl
  rcases List.mem_cons.mp hl with h | h
  · subst h
    refine ⟨by simp, by simp, ?_⟩
    exact noEdgeWS_replicate_succ 1999 'x' (by decide)
  · simp only [List.mem_singleton] at h
    subst h
    exact ⟨by simp, by simp, by decide⟩

/-- C10: a content of length at most 2000 is returned as the single chunk,
character-for-character equal to the input with no trimming; for longer
content every emitted chunk is whitespace-trimmed (a fixed point of trim). -/
theorem claim10_main (content : JStr) :
    (content.length ≤ 2000 → splitMessage content = [content]) ∧
    (2000 < content.length → ∀ c ∈ splitMessage content, jsTrim c = c) := by
  constructor
  · intro h
    unfold splitMessage
    rw [if_pos h]
  · intro h c hc
    unfold splitMessage at hc
    rw [if_neg (by omega)] at hc
    obtain ⟨x, hx⟩ := chunkLines_chunks_trimmed 2000 (splitLines content) [] c hc
    rw [hx, jsTrim_idem]

/-- A single over-long line of 'b' characters, for the C10 witness. -/
def c10input : JStr := List.replicate 2001 'b'

theorem c10_take : c10input.take 1997 = List.replicate 1997 'b' := by
  unfold c10input
  rw [List.take_replicate]
  norm_num

theorem c10_eval : splitMessage c10input = [List.replicate 1997 'b' ++ ellipsis] := by
  have h := splitMessage_single_overlong c10input (by simp [c10input])
    (by unfold c10input; exact no_nl_replicate 2001 'b' (by decide))
  rw [c10_take] at h
  have ht : jsTrim (List.replicate 1997 'b' ++ ellipsis)
      = List.replicate 1997 'b' ++ ellipsis := by
    have hend := noEdgeWS_replicate_ellipsis 1996 'b' (by decide)
    rw [show (1996+1 : Nat) = 1997 from rfl] at hend
    exact jsTrim_eq_self _ hend
  rw [h, ht]

/-- Witness for C10: the short branch returns the input untrimmed (here with
leading and trailing spaces), and a chunk of the long branch is a trim fixed
point. -/
theorem claim10_witness :
    splitMessage ([' ', 'a', ' '] : JStr) = [[' ', 'a', ' ']] ∧
    jsTrim (List.replicate 1997 'b' ++ ellipsis) = List.replicate 1997 'b' ++ ellipsis := by
  constructor
  · exact (claim10_main _).1 (by decide)
  · exact (claim10_main c10input).2 (by simp [c10input]) _ (by rw [c10_eval]; simp)

-- ### Digest renderer (DiscordBot.formatSummary, worker-polling.js lines
-- 935-960 and 1346-1371; scheduler formatSummary, unnamed part_000 lines 178-205)

/-- A stored event, as pushed by `handleMessageCreate`. -/
structure StoredMsg where
  id : JStr
  content : JStr
  author : JStr
  authorId : JStr
  timestamp : Int
  channelId : JStr
  deriving DecidableEq

def natToJStr (n : Nat) : JStr := (Nat.repr n).toList

/-- The per-message content pipeline of `formatSummary`: truncate to the
first 97 characters plus an ellipsis when longer than 100 characters, then
substitute the placeholder when the (possibly truncated) content trims to
empty. -/
def renderContent (content : JStr) : JStr :=
  let c := if 100 < content.length then content.take 97 ++ ellipsis else content
  if (jsTrim c).isEmpty then "_[attachment or embed]_".toList else c

/-- One rendered digest line; the locale-dependent time rendering
(`toLocaleTimeString`) is a parameter. -/
def formatLine (fmtTime : Int → JStr) (m : StoredMsg) : JStr :=
  "• **".toList ++ m.author ++ "** (".toList ++ fmtTime m.timestamp
    ++ "): ".toList ++ renderContent m.content ++ ['\n']

/-- `DiscordBot.formatSummary(messages, hours)`: header, one line per
message, footer with pluralised count. -/
def formatSummary (fmtTime : Int → JStr) (messages : List StoredMsg) (hours : Nat) : JStr :=
  let header := "📊 **Message Summary** (Last ".toList ++ natToJStr hours ++ " hours)\n".toList
  let footer := "\n\n_Total: ".toList ++ natToJStr messages.length ++ " message".toList
    ++ (if messages.length ≠ 1 then ['s'] else []) ++ ['_']
  let body := (messages.map (formatLine fmtTime)).flatten
  header ++ '\n' :: (body ++ footer)

theorem jsTrim_ne_nil_of_mem (y : JStr) (a : Char) (ha : a ∈ y) (hn : isWS a = false) :
    jsTrim y ≠ [] := by
  intro h
  unfold jsTrim at h
  rw [List.rdropWhile_eq_nil_iff] at h
  by_cases hd : y.dropWhile isWS = []
  · rw [List.dropWhile_eq_nil_iff] at hd
    have := hd a ha
    rw [hn] at this
    simp at this
  · have hh := List.head_dropWhile_not isWS y hd
    have hmem : (y.dropWhile isWS).head hd ∈ y.dropWhile isWS := List.head_mem hd
    have := h _ hmem
    rw [hh] at this
    simp at this

/-- C8 — COUNTEREXAMPLE.  Whitespace-only content is replaced by the literal
`_[attachment or embed]_` (wrapped in markdown-italic underscores), not by
the claimed literal `[attachment or embed]`. -/
theorem claim8_counterexample :
    renderContent [' '] = "_[attachment or embed]_".toList ∧
      renderContent [' '] ≠ "[attachment or embed]".toList := by
  constructor
  · decide
  · decide

/-- C8 (amended): content longer than 100 characters is truncated to its
first 97 characters plus an ellipsis marker (100 characters in total), and
content of at most 100 characters that is empty after trimming whitespace
is replaced by the placeholder literal `_[attachment or embed]_`. -/
theorem claim8_main (content : JStr) :
    (100 < content.length →
      renderContent content = content.take 97 ++ ellipsis ∧
        (renderContent content).length = 100) ∧
    (content.length ≤ 100 → (jsTrim content).isEmpty = true →
      renderContent content = "_[attachment or embed]_".toList) := by
  constructor
  · intro h
    have hmem : '.' ∈ content.take 97 ++ ellipsis := by
      apply List.mem_append_right
      unfold ellipsis
      simp
    have hne := jsTrim_ne_nil_of_mem _ '.' hmem (by decide)
    unfold renderContent
    rw [if_pos h, if_neg (by rw [isEmpty_false_of_ne_nil _ hne]; simp)]
    refine ⟨rfl, ?_⟩
    simp only [List.length_append, List.length_take]
    unfold ellipsis
    simp only [List.length_cons, List.length_nil]
    omega
  · intro h1 h2
    unfold renderContent
    rw [if_neg (show ¬ 100 < content.length from by omega)]
    rw [if_pos h2]

/-- Witness for the amended C8: a 101-character content is truncated to 100
characters ending in the ellipsis, and a whitespace-only short content is
replaced by the underscore-wrapped placeholder. -/
theorem claim8_witness :
    renderContent (List.replicate 101 'z') = List.replicate 97 'z' ++ ellipsis ∧
      renderContent ['\t'] = "_[attachment or embed]_".toList := by
  constructor
  · have h := (claim8_main (List.replicate 101 'z')).1 (by simp)
    rw [show (List.replicate 101 'z').take 97 = List.replicate 97 'z' from by
      rw [List.take_replicate]; norm_num] at h
    exact h.1
  · exact (claim8_main ['\t']).2 (by norm_num) (by decide)

-- ### Retention buffer (DiscordBot.handleMessageCreate, worker-polling.js
-- lines 793-824 and 1244-1275; window selection in sendSummary, lines
-- 890-933 and 1301-1344; scheduler sendSummary, unnamed part_000 137-170)

/-- An inbound MESSAGE_CREATE dispatch payload (the fields the bot reads). -/
structure IncomingMsg where
  id : JStr
  content : JStr
  authorUsername : JStr
  authorId : JStr
  authorBot : Bool
  channelId : JStr
  deriving DecidableEq

/-- `DiscordBot.handleMessageCreate`: reject other channels and bot authors,
append with `timestamp: Date.now()`, then prune the store to the window
(`msg.timestamp >= Date.now() - intervalMs`). -/
def handleMessageCreate (cfgChannel : JStr) (intervalMs : Int)
    (store : List StoredMsg) (m : IncomingMsg) (nowT : Int) : List StoredMsg :=
  if m.channelId ≠ cfgChannel then store
  else if m.authorBot then store
  else
    (store ++ [StoredMsg.mk m.id m.content m.authorUsername m.authorId nowT m.channelId]).filter
      (fun x => nowT - intervalMs ≤ x.timestamp)

/-- A sequence of `record` calls: each input is an inbound message paired
with the `Date.now()` at which it arrives. -/
def runRecords (cfgChannel : JStr) (intervalMs : Int) :
    List (IncomingMsg × Int) → List StoredMsg → List StoredMsg
  | [], store => store
  | (m, t) :: rest, store =>
    runRecords cfgChannel intervalMs rest (handleMessageCreate cfgChannel intervalMs store m t)

/-- The window selection in `sendSummary`:
`messageStore.filter(msg => msg.timestamp >= cutoffTime)` with
`cutoffTime = now - intervalMs`. -/
def recentMessages (store : List StoredMsg) (nowT intervalMs : Int) : List StoredMsg :=
  store.filter (fun m => nowT - intervalMs ≤ m.timestamp)

/-- Ascending order of stored timestamps. -/
def tsLE (a b : StoredMsg) : Prop := a.timestamp ≤ b.timestamp

instance : DecidableRel tsLE := fun a b => inferInstanceAs (Decidable (a.timestamp ≤ b.timestamp))

theorem handleMessageCreate_cases (cfgChannel : JStr) (intervalMs : Int)
    (store : List StoredMsg) (m : IncomingMsg) (t : Int) :
    handleMessageCreate cfgChannel intervalMs store m t = store ∨
    handleMessageCreate cfgChannel intervalMs store m t =
      (store ++ [StoredMsg.mk m.id m.content m.authorUsername m.authorId t m.channelId]).filter
        (fun x => t - intervalMs ≤ x.timestamp) := by
  unfold handleMessageCreate
  by_cases h1 : m.channelId ≠ cfgChannel
  · left
    rw [if_pos h1]
  · rw [if_neg h1]
    by_cases h2 : m.authorBot
    · left
      rw [if_pos h2]
    · right
      rw [if_neg h2]

theorem runRecords_sorted_bounded (cfgChannel : JStr) (intervalMs nowT : Int) :
    ∀ (inputs : List (IncomingMsg × Int)) (store : List StoredMsg),
      store.Pairwise tsLE →
      (∀ s ∈ store, ∀ p ∈ inputs, s.timestamp ≤ p.2) →
      (∀ s ∈ store, s.timestamp ≤ nowT) →
      (∀ p ∈ inputs, p.2 ≤ nowT) →
      (inputs.map Prod.snd).Pairwise (· ≤ ·) →
      (runRecords cfgChannel intervalMs inputs store).Pairwise tsLE ∧
      (∀ s ∈ runRecords cfgChannel intervalMs inputs store, s.timestamp ≤ nowT) := by
  intro inputs
  induction inputs with
  | nil =>
    intro store h1 _ h3 _ _
    exact ⟨h1, h3⟩
  | cons p rest ih =>
    intro store h1 h2 h3 h4 h5
    obtain ⟨m, t⟩ := p
    simp only [runRecords]
    have hmemnew : ∀ s ∈ handleMessageCreate cfgChannel intervalMs store m t,
        s ∈ store ∨ s.timestamp = t := by
      intro s hs
      rcases handleMessageCreate_cases cfgChannel intervalMs store m t with hc | hc
      · rw [hc] at hs
        exact Or.inl hs
      · rw [hc] at hs
        have := (List.mem_filter.mp hs).1
        rcases List.mem_append.mp this with h | h
        · exact Or.inl h
        · right
          rw [List.mem_singleton] at h
          rw [h]
    have hsort : (handleMessageCreate cfgChannel intervalMs store m t).Pairwise tsLE := by
      rcases handleMessageCreate_cases cfgChannel intervalMs store m t with hc | hc
      · rw [hc]
        exact h1
      · rw [hc]
        apply List.Pairwise.sublist (List.filter_sublist _)
        rw [List.pairwise_append]
        refine ⟨h1, by simp, ?_⟩
        intro a ha b hb
        rw [List.mem_singleton] at hb
        rw [hb]
        exact h2 a ha (m, t) (List.mem_cons_self _ _)
    apply ih _ hsort
    · intro s hs q hq
      rcases hmemnew s hs with h | h
      · exact h2 s h q (List.mem_cons_of_mem _ hq)
      · rw [h]
        have : ∀ b ∈ rest.map Prod.snd, t ≤ b := by
          intro b hb
          simp only [List.map_cons] at h5
          exact List.rel_of_pairwise_cons h5 hb
        exact this q.2 (List.mem_map_of_mem Prod.snd hq)
    · intro s hs
      rcases hmemnew s hs with h | h
      · exact h3 s h
      · rw [h]
        exact h4 (m, t) (List.mem_cons_self _ _)
    · intro q hq
      exact h4 q (List.mem_cons_of_mem _ hq)
    · simp only [List.map_cons] at h5
      exact h5.tail

/-- C2: after any sequence of `record` calls at nondecreasing times, all at
or before `now`, the summary window selection returns exactly the stored
events with `timestamp` in the closed interval `[now − D, now]`, in
ascending timestamp order. -/
theorem claim2_main (cfgChannel : JStr) (D nowT : Int)
    (inputs : List (IncomingMsg × Int))
    (hmono : (inputs.map Prod.snd).Pairwise (· ≤ ·))
    (hle : ∀ p ∈ inputs, p.2 ≤ nowT) :
    (∀ s, s ∈ recentMessages (runRecords cfgChannel D inputs []) nowT D ↔
      (s ∈ runRecords cfgChannel D inputs [] ∧
        nowT - D ≤ s.timestamp ∧ s.timestamp ≤ nowT)) ∧
    recentMessages (runRecords cfgChannel D inputs []) nowT D =
      (runRecords cfgChannel D inputs []).filter
        (fun m => decide (nowT - D ≤ m.timestamp) && decide (m.timestamp ≤ nowT)) ∧
    (recentMessages (runRecords cfgChannel D inputs []) nowT D).Pairwise tsLE := by
  obtain ⟨hsort, hbound⟩ := runRecords_sorted_bounded cfgChannel D nowT inputs []
    (by simp) (by simp) (by simp) hle hmono
  refine ⟨?_, ?_, ?_⟩
  · intro s
    unfold recentMessages
    rw [List.mem_filter]
    constructor
    · rintro ⟨hs, hf⟩
      refine ⟨hs, by simpa using hf, hbound s hs⟩
    · rintro ⟨hs, hf, _⟩
      exact ⟨hs, by simpa using hf⟩
  · unfold recentMessages
    apply List.filter_congr
    intro x hx
    have hb := hbound x hx
    simp [hb]
  · exact hsort.sublist (List.filter_sublist _)

def c2chan : JStr := ['c']

def c2msgEarly : IncomingMsg := ⟨['1'], ['h','i'], ['u'], ['7'], false, ['c']⟩

def c2msgLate : IncomingMsg := ⟨['2'], ['y','o'], ['v'], ['8'], false, ['c']⟩

def c2inputs : List (IncomingMsg × Int) := [(c2msgEarly, 100), (c2msgLate, 200)]

def c2storedEarly : StoredMsg := ⟨['1'], ['h','i'], ['u'], ['7'], 100, ['c']⟩

def c2storedLate : StoredMsg := ⟨['2'], ['y','o'], ['v'], ['8'], 200, ['c']⟩

/-- Witness for C2: two records at times 100 and 200, window taken at
`now = 250` with `D = 100` selects exactly the event at 200 (the event at
100 falls outside `[150, 250]`), in sorted order. -/
theorem claim2_witness :
    c2storedLate ∈ recentMessages (runRecords c2chan 100 c2inputs []) 250 100 ∧
      c2storedEarly ∉ recentMessages (runRecords c2chan 100 c2inputs []) 250 100 ∧
      (recentMessages (runRecords c2chan 100 c2inputs []) 250 100).Pairwise tsLE := by
  have h := claim2_main c2chan 100 250 c2inputs (by decide) (by decide)
  refine ⟨?_, ?_, h.2.2⟩
  · exact (h.1 c2storedLate).mpr ⟨by decide, by decide, by decide⟩
  · intro hmem
    have h21 := ((h.1 c2storedEarly).mp hmem).2.1
    rw [show c2storedEarly.timestamp = 100 from rfl] at h21
    omega

-- ### Gateway session (DiscordBot.handleGatewayMessage, worker-polling.js
-- lines 710-742 and 1161-1193; startHeartbeat, identify, close handler)

/-- Observable actions of the session: timer operations and outbound sends. -/
inductive GwAction where
  | startHB (intervalMs : Nat)
  | stopHB
  | sendIdentify
  | sendHeartbeat (seq : Option Int)
  | scheduleSummary
  deriving DecidableEq

/-- An inbound gateway frame `{op, t, s, d}` (the payload fields the bot reads). -/
structure GatewayMsg where
  op : Nat
  t : Option JStr
  s : Option Int
  heartbeatIntervalMs : Nat
  sessionIdPayload : Option JStr
  deriving DecidableEq

/-- The mutable session state of the `DiscordBot` object that the gateway
handler touches. -/
structure SessState where
  sequenceNumber : Option Int
  heartbeatRunning : Bool
  sessionId : Option JStr
  wsOpen : Bool
  deriving DecidableEq

/-- `if (s !== null) this.sequenceNumber = s`. -/
def updateSeq (st : SessState) (sq : Option Int) : SessState :=
  match sq with
  | some v => { st with sequenceNumber := some v }
  | none => st

/-- `DiscordBot.handleGatewayMessage`: update the sequence number, then
dispatch on opcode.  Opcode 10 (hello) starts the heartbeat timer, then
sends identify (which checks that the socket is open), then schedules the
summary alarm; opcode 1 answers with an immediate heartbeat; opcodes 0, 11
and unknown opcodes send nothing. -/
def handleGatewayMessage (st : SessState) (m : GatewayMsg) : SessState × List GwAction :=
  let st1 := updateSeq st m.s
  if m.op = 10 then
    ({ st1 with heartbeatRunning := true },
      GwAction.startHB m.heartbeatIntervalMs ::
        ((if st1.wsOpen then [GwAction.sendIdentify] else []) ++ [GwAction.scheduleSummary]))
  else if m.op = 0 then
    (if m.t = some "READY".toList then { st1 with sessionId := m.sessionIdPayload } else st1,
      [])
  else if m.op = 1 then
    (st1, if st1.wsOpen then [GwAction.sendHeartbeat st1.sequenceNumber] else [])
  else (st1, [])

/-- Session-level events: an inbound frame, or the socket close handler
(which nulls the socket and cancels the heartbeat timer). -/
inductive SessionEvent where
  | gatewayFrame (m : GatewayMsg)
  | socketClose
  deriving DecidableEq

def sessionStep (st : SessState) (e : SessionEvent) : SessState × List GwAction :=
  match e with
  | SessionEvent.gatewayFrame m => handleGatewayMessage st m
  | SessionEvent.socketClose =>
    ({ st with wsOpen := false, heartbeatRunning := false }, [GwAction.stopHB])

def sessionRun (st : SessState) : List SessionEvent → SessState × List GwAction
  | [] => (st, [])
  | e :: evs =>
    ((sessionRun (sessionStep st e).1 evs).1,
      (sessionStep st e).2 ++ (sessionRun (sessionStep st e).1 evs).2)

/-- Checks that every identify send in an action trace is immediately
preceded by a heartbeat-timer start. -/
def identifyGuarded : List GwAction → Bool
  | [] => true
  | GwAction.sendIdentify :: _ => false
  | GwAction.startHB _ :: GwAction.sendIdentify :: rest => identifyGuarded rest
  | _ :: rest => identifyGuarded rest

theorem identifyGuarded_append : ∀ n (l : List GwAction), l.length ≤ n →
    ∀ m, identifyGuarded l = true → identifyGuarded m = true →
      m.head? ≠ some GwAction.sendIdentify → identifyGuarded (l ++ m) = true := by
  intro n
  induction n with
  | zero =>
    intro l hlen m hl hm _
    have : l = [] := by
      cases l with
      | nil => rfl
      | cons a rest => simp at hlen
    rw [this]
    simpa using hm
  | succ n ih =>
    intro l hlen m hl hm hhead
    match l with
    | [] => simpa using hm
    | GwAction.sendIdentify :: rest => simp [identifyGuarded] at hl
    | GwAction.startHB iv :: GwAction.sendIdentify :: rest =>
      simp only [identifyGuarded] at hl
      simp only [List.cons_append, identifyGuarded]
      refine ih rest ?_ m hl hm hhead
      simp at hlen
      omega
    | [GwAction.startHB iv] =>
      cases m with
      | nil => simp [identifyGuarded]
      | cons b m' =>
        cases b with
        | sendIdentify => simp at hhead
        | startHB iv2 =>
          simp only [List.cons_append, List.nil_append]
          cases m' with
          | nil => simp [identifyGuarded]
          | cons b2 m'' =>
            cases b2 with
            | sendIdentify => simpa [identifyGuarded] using hm
            | startHB iv3 => simpa [identifyGuarded] using hm
            | stopHB => simpa [identifyGuarded] using hm
            | sendHeartbeat s => simpa [identifyGuarded] using hm
            | scheduleSummary => simpa [identifyGuarded] using hm
        | stopHB => simpa [identifyGuarded] using hm
        | sendHeartbeat s => simpa [identifyGuarded] using hm
        | scheduleSummary => simpa [identifyGuarded] using hm
    | GwAction.startHB iv :: GwAction.startHB iv2 :: rest =>
      simp only [identifyGuarded] at hl
      simp only [List.cons_append, identifyGuarded]
      refine ih _ ?_ m hl hm hhead
      simp at hlen ⊢
      omega
    | GwAction.startHB iv :: GwAction.stopHB :: rest =>
      simp only [identifyGuarded] at hl
      simp only [List.cons_append, identifyGuarded]
      refine ih _ ?_ m hl hm hhead
      simp at hlen ⊢
      omega
    | GwAction.startHB iv :: GwAction.sendHeartbeat s :: rest =>
      simp only [identifyGuarded] at hl
      simp only [List.cons_append, identifyGuarded]
      refine ih _ ?_ m hl hm hhead
      simp at hlen ⊢
      omega
    | GwAction.startHB iv :: GwAction.scheduleSummary :: rest =>
      simp only [identifyGuarded] at hl
      simp only [List.cons_append, identifyGuarded]
      refine ih _ ?_ m hl hm hhead
      simp at hlen ⊢
      omega
    | GwAction.stopHB :: rest =>
      simp only [identifyGuarded] at hl
      simp only [List.cons_append, identifyGuarded]
      refine ih rest ?_ m hl hm hhead
      simp at hlen
      omega
    | GwAction.sendHeartbeat s :: rest =>
      simp only [identifyGuarded] at hl
      simp only [List.cons_append, identifyGuarded]
      refine ih rest ?_ m hl hm hhead
      simp at hlen
      omega
    | GwAction.scheduleSummary :: rest =>
      simp only [identifyGuarded] at hl
      simp only [List.cons_append, identifyGuarded]
      refine ih rest ?_ m hl hm hhead
      simp at hlen
      omega

theorem sessionStep_guard (st : SessState) (e : SessionEvent) :
    identifyGuarded (sessionStep st e).2 = true ∧
      (sessionStep st e).2.head? ≠ some GwAction.sendIdentify := by
  cases e with
  | socketClose =>
    constructor
    · simp [sessionStep, identifyGuarded]
    · simp [sessionStep]
  | gatewayFrame m =>
    simp only [sessionStep]
    unfold handleGatewayMessage
    by_cases h10 : m.op = 10
    · rw [if_pos h10]
      by_cases hws : (updateSeq st m.s).wsOpen
      · simp [hws, identifyGuarded]
      · simp [hws, identifyGuarded]
    · rw [if_neg h10]
      by_cases h0 : m.op = 0
      · rw [if_pos h0]
        simp [identifyGuarded]
      · rw [if_neg h0]
        by_cases h1 : m.op = 1
        · rw [if_pos h1]
          by_cases hws : (updateSeq st m.s).wsOpen
          · simp [hws, identifyGuarded]
          · simp [hws, identifyGuarded]
        · rw [if_neg h1]
          simp [identifyGuarded]

theorem sessionRun_guard (st : SessState) (evs : List SessionEvent) :
    identifyGuarded (sessionRun st evs).2 = true ∧
      (sessionRun st evs).2.head? ≠ some GwAction.sendIdentify := by
  induction evs generalizing st with
  | nil => simp [sessionRun, identifyGuarded]
  | cons e evs ih =>
    simp only [sessionRun]
    obtain ⟨hg, hh⟩ := sessionStep_guard st e
    obtain ⟨hg2, hh2⟩ := ih (sessionStep st e).1
    constructor
    · exact identifyGuarded_append ((sessionStep st e).2.length) _ (le_refl _) _ hg hg2 hh2
    · cases hacts : (sessionStep st e).2 with
      | nil => simpa using hh2
      | cons a rest =>
        rw [hacts] at hh
        simp only [List.cons_append, List.head?_cons]
        simpa using hh

theorem sessionStep_identify_heartbeat (st : SessState) (e : SessionEvent) :
    GwAction.sendIdentify ∈ (sessionStep st e).2 →
      (sessionStep st e).1.heartbeatRunning = true := by
  cases e with
  | socketClose =>
    intro h
    simp [sessionStep] at h
  | gatewayFrame m =>
    intro h
    simp only [sessionStep] at h ⊢
    unfold handleGatewayMessage at h ⊢
    by_cases h10 : m.op = 10
    · rw [if_pos h10]
    · rw [if_neg h10] at h ⊢
      by_cases h0 : m.op = 0
      · rw [if_pos h0] at h
        simp at h
      · rw [if_neg h0] at h ⊢
        by_cases h1 : m.op = 1
        · rw [if_pos h1] at h
          by_cases hws : (updateSeq st m.s).wsOpen
          · simp [hws] at h
          · simp [hws] at h
        · rw [if_neg h1] at h
          simp at h

/-- C3: in every run of the session, any identify send in the emitted
action trace is immediately preceded by starting the heartbeat timer; a
step that emits identify leaves the heartbeat timer running; and the hello
handler (opcode 10) on an open socket emits exactly start-heartbeat, then
identify, then the summary scheduling — identify is never sent before the
heartbeat timer is started. -/
theorem claim3_main (st st2 : SessState) (evs : List SessionEvent)
    (e : SessionEvent) (m : GatewayMsg) (hop : m.op = 10)
    (hws : (updateSeq st2 m.s).wsOpen = true) :
    identifyGuarded (sessionRun st evs).2 = true ∧
    (GwAction.sendIdentify ∈ (sessionStep st2 e).2 →
      (sessionStep st2 e).1.heartbeatRunning = true) ∧
    (handleGatewayMessage st2 m).2 =
      [GwAction.startHB m.heartbeatIntervalMs, GwAction.sendIdentify,
        GwAction.scheduleSummary] := by
  refine ⟨(sessionRun_guard st evs).1, sessionStep_identify_heartbeat st2 e, ?_⟩
  unfold handleGatewayMessage
  rw [if_pos hop]
  simp [hws]

/-- Witness for C3 at a concrete hello frame on an open socket. -/
theorem claim3_witness :
    identifyGuarded (sessionRun ⟨none, false, none, true⟩
      [SessionEvent.gatewayFrame ⟨10, none, none, 41250, none⟩]).2 = true ∧
    (handleGatewayMessage ⟨none, false, none, true⟩ ⟨10, none, none, 41250, none⟩).2 =
      [GwAction.startHB 41250, GwAction.sendIdentify, GwAction.scheduleSummary] := by
  have h := claim3_main ⟨none, false, none, true⟩ ⟨none, false, none, true⟩
    [SessionEvent.gatewayFrame ⟨10, none, none, 41250, none⟩]
    (SessionEvent.gatewayFrame ⟨10, none, none, 41250, none⟩)
    ⟨10, none, none, 41250, none⟩ rfl rfl
  exact ⟨h.1, h.2.2⟩

-- ### Reconnection and backoff (DiscordBot.connectToGateway, worker-polling.js
-- lines 1094-1158: open/close/error listeners and the fetch-failure path)

/-- The connection-lifecycle fields of the `DiscordBot` object. -/
structure ConnState where
  reconnectAttempts : Nat
  connected : Bool
  isConnecting : Bool
  deriving DecidableEq

/-- Connection-lifecycle events of `connectToGateway`. -/
inductive ConnEvent where
  | connectStart
  | wsOpen
  | wsClose
  | wsError
  | fetchFailure
  deriving DecidableEq

/-- `Math.min(5000 * Math.pow(2, attempt - 1), 60000)`. -/
def backoffDelay (attempt : Nat) : Nat := min (5000 * 2 ^ (attempt - 1)) 60000

/-- One step of the connection lifecycle.  The second component is the
reconnection delay scheduled by this event, when any:
open resets the counter and marks connected; close and a gateway-URL fetch
failure increment the counter and schedule `backoffDelay`; error and the
start of a connect attempt leave the counter untouched. -/
def connStep (st : ConnState) (e : ConnEvent) : ConnState × Option Nat :=
  match e with
  | ConnEvent.connectStart => ({ st with isConnecting := true }, none)
  | ConnEvent.wsOpen =>
    ({ st with reconnectAttempts := 0, connected := true, isConnecting := false }, none)
  | ConnEvent.wsClose =>
    ({ st with
        reconnectAttempts := st.reconnectAttempts + 1
        connected := false
        isConnecting := false },
      some (backoffDelay (st.reconnectAttempts + 1)))
  | ConnEvent.wsError => ({ st with isConnecting := false }, none)
  | ConnEvent.fetchFailure =>
    ({ st with
        reconnectAttempts := st.reconnectAttempts + 1
        isConnecting := false },
      some (backoffDelay (st.reconnectAttempts + 1)))

/-- The delays scheduled by `n` consecutive abnormal closes from state `st`,
with no successful connection in between. -/
def closeDelays (st : ConnState) : Nat → List Nat
  | 0 => []
  | n + 1 =>
    (connStep st ConnEvent.wsClose).2.toList
      ++ closeDelays (connStep st ConnEvent.wsClose).1 n

theorem closeDelays_formula (n : Nat) : ∀ st : ConnState,
    closeDelays st n =
      (List.range n).map (fun k => min (5000 * 2 ^ (st.reconnectAttempts + k)) 60000) := by
  induction n with
  | zero =>
    intro st
    simp [closeDelays]
  | succ n ih =>
    intro st
    simp only [closeDelays, connStep, Option.toList]
    rw [ih, List.range_succ_eq_map]
    simp only [List.map_cons, List.map_map, List.singleton_append]
    unfold backoffDelay
    refine List.cons_eq_cons.mpr ⟨?_, ?_⟩
    · congr 2
    · apply List.map_congr_left
      intro k _
      simp only [Function.comp_apply, Nat.succ_eq_add_one]
      have h2 : st.reconnectAttempts + 1 + k = st.reconnectAttempts + (k + 1) := by omega
      rw [h2]

/-- C4: starting from any state just after a successful connection (where
the counter has been reset to zero), the delay scheduled by the n-th
consecutive abnormal close is `min(5000·2^(n−1), 60000)` ms; in particular
five consecutive closes give 5 s, 10 s, 20 s, 40 s, 60 s. -/
theorem claim4_main (st0 : ConnState) (n i : Nat) (hi : i < n) :
    (closeDelays (connStep st0 ConnEvent.wsOpen).1 n)[i]? =
      some (min (5000 * 2 ^ i) 60000) ∧
    closeDelays (connStep st0 ConnEvent.wsOpen).1 5 =
      [5000, 10000, 20000, 40000, 60000] := by
  have hzero : (connStep st0 ConnEvent.wsOpen).1.reconnectAttempts = 0 := rfl
  constructor
  · rw [closeDelays_formula, hzero]
    simp only [Nat.zero_add]
    rw [List.getElem?_map, List.getElem?_range hi]
    rfl
  · rw [closeDelays_formula, hzero]
    rfl

/-- Witness for C4: the third consecutive close after a success is delayed
by 20 s. -/
theorem claim4_witness :
    (closeDelays (connStep ⟨7, false, false⟩ ConnEvent.wsOpen).1 5)[2]? = some 20000 ∧
    closeDelays (connStep ⟨7, false, false⟩ ConnEvent.wsOpen).1 5 =
      [5000, 10000, 20000, 40000, 60000] := by
  have h := claim4_main ⟨7, false, false⟩ 5 2 (by norm_num)
  refine ⟨?_, h.2⟩
  rw [h.1]
  norm_num

/-- Connection lifecycle refined with the READY dispatch, so that the
specification's `Connected` state — entered on the "ready" dispatch, after
identify — is expressible alongside the transport-level events.  Faithful
to the same `connectToGateway` listeners as `connStep` plus
`handleEvent('READY')`, which only records the session id. -/
structure GwConnState where
  reconnectAttempts : Nat
  wsOpen : Bool
  readyReceived : Bool
  deriving DecidableEq

/-- Events of the refined lifecycle: the start of a connect attempt, the
transport `open` listener, the READY dispatch (the specification's
transition into `Connected`), transport close, the socket error listener,
and a failure of the gateway-URL fetch. -/
inductive GwConnEvent where
  | connectStart
  | transportOpen
  | readyDispatch
  | transportClose
  | transportError
  | gatewayFetchFailure
  deriving DecidableEq

/-- One step of the refined lifecycle.  The `open` listener executes
`this.reconnectAttempts = 0` and only marks the transport open — the READY
dispatch has not happened yet at that point; `handleEvent('READY')` sets
the session id and touches no counter; close and a gateway-URL fetch
failure increment the counter; connect start and the error listener leave
it unchanged. -/
def gwConnStep (st : GwConnState) (e : GwConnEvent) : GwConnState :=
  match e with
  | GwConnEvent.connectStart => st
  | GwConnEvent.transportOpen => { st with reconnectAttempts := 0, wsOpen := true }
  | GwConnEvent.readyDispatch => { st with readyReceived := true }
  | GwConnEvent.transportClose =>
    { st with
        reconnectAttempts := st.reconnectAttempts + 1
        wsOpen := false
        readyReceived := false }
  | GwConnEvent.transportError => st
  | GwConnEvent.gatewayFetchFailure =>
    { st with reconnectAttempts := st.reconnectAttempts + 1 }

/-- C6 — COUNTEREXAMPLE.  After three failed attempts, the transport `open`
listener resets the counter to zero although the READY dispatch — the
specification's transition into `Connected` — has not occurred yet: the
reset happens at an earlier point of the connection attempt than the
`Connected` transition, and the READY transition itself leaves the counter
untouched. -/
theorem claim6_counterexample :
    (gwConnStep ⟨3, false, false⟩ GwConnEvent.transportOpen).reconnectAttempts = 0 ∧
      (gwConnStep ⟨3, false, false⟩ GwConnEvent.transportOpen).readyReceived = false ∧
      (gwConnStep ⟨3, true, false⟩ GwConnEvent.readyDispatch).reconnectAttempts = 3 :=
  ⟨rfl, rfl, rfl⟩

/-- C6 (amended): the reconnect counter is incremented on every abnormal
close (and on a gateway-URL fetch failure) and is reset to zero only in the
transport `open` listener — a point of the connection attempt that precedes
identify and the READY dispatch; it is never reset at connect start, socket
error, close, fetch failure, or by the READY (`Connected`) transition
itself. -/
theorem claim6_main (st : GwConnState) (e : GwConnEvent) :
    ((gwConnStep st GwConnEvent.transportClose).reconnectAttempts
        = st.reconnectAttempts + 1) ∧
    ((gwConnStep st GwConnEvent.transportOpen).reconnectAttempts = 0 ∧
      (gwConnStep st GwConnEvent.transportOpen).readyReceived = st.readyReceived) ∧
    ((gwConnStep st GwConnEvent.readyDispatch).reconnectAttempts
        = st.reconnectAttempts) ∧
    ((gwConnStep st e).reconnectAttempts ≠ st.reconnectAttempts →
      (e = GwConnEvent.transportClose ∧
          (gwConnStep st e).reconnectAttempts = st.reconnectAttempts + 1) ∨
        (e = GwConnEvent.gatewayFetchFailure ∧
          (gwConnStep st e).reconnectAttempts = st.reconnectAttempts + 1) ∨
        (e = GwConnEvent.transportOpen ∧
          (gwConnStep st e).reconnectAttempts = 0)) := by
  refine ⟨rfl, ⟨rfl, rfl⟩, rfl, ?_⟩
  intro hne
  cases e with
  | connectStart => exact absurd rfl hne
  | transportOpen => exact Or.inr (Or.inr ⟨rfl, rfl⟩)
  | readyDispatch => exact absurd rfl hne
  | transportClose => exact Or.inl ⟨rfl, rfl⟩
  | transportError => exact absurd rfl hne
  | gatewayFetchFailure => exact Or.inr (Or.inl ⟨rfl, rfl⟩)

/-- Witness for the amended C6 at concrete states with a nonzero counter. -/
theorem claim6_witness :
    (gwConnStep ⟨2, true, true⟩ GwConnEvent.transportClose).reconnectAttempts = 3 ∧
      (gwConnStep ⟨2, false, false⟩ GwConnEvent.transportOpen).reconnectAttempts = 0 ∧
      ((GwConnEvent.transportClose = GwConnEvent.transportClose ∧
          (gwConnStep ⟨2, true, true⟩ GwConnEvent.transportClose).reconnectAttempts
            = 2 + 1) ∨
        (GwConnEvent.transportClose = GwConnEvent.gatewayFetchFailure ∧
          (gwConnStep ⟨2, true, true⟩ GwConnEvent.transportClose).reconnectAttempts
            = 2 + 1) ∨
        (GwConnEvent.transportClose = GwConnEvent.transportOpen ∧
          (gwConnStep ⟨2, true, true⟩ GwConnEvent.transportClose).reconnectAttempts
            = 0)) := by
  have h := claim6_main ⟨2, true, true⟩ GwConnEvent.transportClose
  exact ⟨h.1, (claim6_main ⟨2, false, false⟩ GwConnEvent.transportOpen).2.1.1,
    h.2.2.2 (by simp [gwConnStep])⟩

-- ### Fixed-hour summary trigger (DiscordBot.scheduleNextSummary,
-- worker-polling.js lines 833-847 and 1277-1291)

def msPerDay : Nat := 86400000

def msPerHour : Nat := 3600000

/-- Today's instant of the configured hour, UTC:
`next = new Date(); next.setUTCHours(summaryHour, 0, 0, 0)`. -/
def todayAtHour (nowMs summaryHour : Nat) : Nat :=
  (nowMs / msPerDay) * msPerDay + summaryHour * msPerHour

/-- `DiscordBot.scheduleNextSummary`: the alarm instant is today at the
configured hour if that is still strictly in the future, otherwise
tomorrow at that hour (`if (next <= now) next.setUTCDate(getUTCDate()+1)`). -/
def nextSummaryTime (nowMs summaryHour : Nat) : Nat :=
  if todayAtHour nowMs summaryHour ≤ nowMs then todayAtHour nowMs summaryHour + msPerDay
  else todayAtHour nowMs summaryHour

theorem nextSummaryTime_gt (nowMs summaryHour : Nat) :
    nowMs < nextSummaryTime nowMs summaryHour := by
  unfold nextSummaryTime todayAtHour msPerDay msPerHour
  have hdiv := Nat.div_add_mod nowMs 86400000
  have hmod := Nat.mod_lt nowMs (show 0 < 86400000 by norm_num)
  by_cases h : (nowMs / 86400000) * 86400000 + summaryHour * 3600000 ≤ nowMs
  · rw [if_pos h]
    omega
  · rw [if_neg h]
    omega

/-- C5: with a configured hour `H < 24`, the computed fire time is today at
`H:00` UTC when that instant is strictly after now and tomorrow at `H:00`
otherwise; it always lands on `H:00:00.000` UTC, lies in `(now, now+24h]`,
and recomputing at any instant at or after the previous fire time moves
strictly forward — the trigger never fires twice for the same instant.  In
particular 09:30 with `H = 9` schedules tomorrow 09:00, and 08:30 schedules
today 09:00. -/
theorem claim5_main (nowMs summaryHour : Nat) (hH : summaryHour < 24) :
    (nowMs < todayAtHour nowMs summaryHour →
      nextSummaryTime nowMs summaryHour = todayAtHour nowMs summaryHour) ∧
    (todayAtHour nowMs summaryHour ≤ nowMs →
      nextSummaryTime nowMs summaryHour = todayAtHour nowMs summaryHour + msPerDay) ∧
    nowMs < nextSummaryTime nowMs summaryHour ∧
    nextSummaryTime nowMs summaryHour ≤ nowMs + msPerDay ∧
    nextSummaryTime nowMs summaryHour % msPerDay = summaryHour * msPerHour ∧
    (∀ later, nextSummaryTime nowMs summaryHour ≤ later →
      nextSummaryTime nowMs summaryHour < nextSummaryTime later summaryHour) ∧
    nextSummaryTime (20000 * msPerDay + 9 * msPerHour + 30 * 60000) 9
      = 20001 * msPerDay + 9 * msPerHour ∧
    nextSummaryTime (20000 * msPerDay + 8 * msPerHour + 30 * 60000) 9
      = 20000 * msPerDay + 9 * msPerHour := by
  refine ⟨?_, ?_, nextSummaryTime_gt nowMs summaryHour, ?_, ?_, ?_, ?_, ?_⟩
  · intro h
    unfold nextSummaryTime
    rw [if_neg (by omega)]
  · intro h
    unfold nextSummaryTime
    rw [if_pos h]
  · unfold nextSummaryTime todayAtHour msPerDay msPerHour
    have hdiv := Nat.div_add_mod nowMs 86400000
    have hmod := Nat.mod_lt nowMs (show 0 < 86400000 by norm_num)
    by_cases h : (nowMs / 86400000) * 86400000 + summaryHour * 3600000 ≤ nowMs
    · rw [if_pos h]
      omega
    · rw [if_neg h]
      omega
  · unfold nextSummaryTime todayAtHour msPerDay msPerHour
    have hH2 : summaryHour * 3600000 < 86400000 := by omega
    by_cases h : (nowMs / 86400000) * 86400000 + summaryHour * 3600000 ≤ nowMs
    · rw [if_pos h]
      omega
    · rw [if_neg h]
      omega
  · intro later hlater
    exact lt_of_le_of_lt hlater (nextSummaryTime_gt later summaryHour)
  · unfold nextSummaryTime todayAtHour msPerDay msPerHour
    norm_num
  · unfold nextSummaryTime todayAtHour msPerDay msPerHour
    norm_num

/-- Witness for C5 at the two concrete instants of the specification. -/
theorem claim5_witness :
    nextSummaryTime (20000 * msPerDay + 9 * msPerHour + 30 * 60000) 9
        = 20001 * msPerDay + 9 * msPerHour ∧
      nextSummaryTime (20000 * msPerDay + 8 * msPerHour + 30 * 60000) 9
        = 20000 * msPerDay + 9 * msPerHour ∧
      nextSummaryTime (20000 * msPerDay + 9 * msPerHour) 9 % msPerDay = 9 * msPerHour := by
  have h := claim5_main (20000 * msPerDay + 9 * msPerHour) 9 (by norm_num)
  exact ⟨h.2.2.2.2.2.2.1, h.2.2.2.2.2.2.2, h.2.2.2.2.1⟩

-- ### Chunk delivery (sendDirectMessage, worker-polling.js lines 206-251 and
-- unnamed part_000 lines 553-598; DiscordBot.sendLongMessage /
-- sendDiscordMessage, worker-polling.js lines 962-1005 and 1373-1416)

/-- An HTTP response as the delivery code observes it. -/
structure HttpResponse where
  status : Nat
  deriving DecidableEq

/-- JavaScript `response.ok`: status in the range 200–299. -/
def responseOk (r : HttpResponse) : Bool := 200 ≤ r.status && r.status ≤ 299

/-- Outcome of a delivery attempt. -/
inductive DeliveryResult where
  | ok
  | dmChannelError (status : Nat)
  | sendError (status : Nat) (failedIndex : Nat)
  deriving DecidableEq

/-- The chunk-sending loop of `sendDirectMessage`: one POST per chunk, in
order; a non-2xx response throws, aborting the loop.  Returns the chunks
for which a request was actually made, and the outcome.  `sendResp i` is
the oracle response to the `i`-th send. -/
def sendChunks (sendResp : Nat → HttpResponse) : Nat → List JStr → List JStr × DeliveryResult
  | _, [] => ([], DeliveryResult.ok)
  | i, c :: rest =>
    if responseOk (sendResp i) then
      ((c :: (sendChunks sendResp (i+1) rest).1), (sendChunks sendResp (i+1) rest).2)
    else ([c], DeliveryResult.sendError (sendResp i).status i)

/-- `sendDirectMessage(token, userId, content)`: create the DM channel
(a non-ok response throws), split the content, then send each chunk. -/
def sendDirectMessage (dmResp : HttpResponse) (sendResp : Nat → HttpResponse)
    (content : JStr) : List JStr × DeliveryResult :=
  if responseOk dmResp then sendChunks sendResp 0 (splitMessage content)
  else ([], DeliveryResult.dmChannelError dmResp.status)

/-- The splitting-and-sending loop of `DiscordBot.sendLongMessage`; returns
the payloads passed to `sendDiscordMessage`, in order.  `sendDiscordMessage`
never inspects the response, so the sent payloads do not depend on any
response. -/
def sendLongChunksGo (maxLength : Nat) : JStr → List JStr → List JStr
  | cur, [] => if cur.isEmpty then [] else [cur]
  | cur, line :: rest =>
    if maxLength < (cur ++ line ++ ['\n']).length then
      (if cur.isEmpty then [] else [cur]) ++
        (if maxLength < line.length then
          (line.take (maxLength - 3) ++ ellipsis) :: sendLongChunksGo maxLength [] rest
        else sendLongChunksGo maxLength (line ++ ['\n']) rest)
    else sendLongChunksGo maxLength (cur ++ line ++ ['\n']) rest

/-- `DiscordBot.sendLongMessage(channelId, content)`. -/
def sendLongChunks (maxLength : Nat) (content : JStr) : List JStr :=
  if content.length ≤ maxLength then [content]
  else sendLongChunksGo maxLength [] (splitLines content)

/-- The requests performed by the Durable Object delivery path, paired with
the responses each receives.  Faithful to `sendDiscordMessage`
(worker-polling.js lines 996-1005), which never checks `response.ok`: every
chunk is posted regardless of earlier responses. -/
def attachResponses (sendResp : Nat → HttpResponse) : Nat → List JStr → List (JStr × HttpResponse)
  | _, [] => []
  | i, c :: rest => (c, sendResp i) :: attachResponses sendResp (i+1) rest

def doSendsDO (sendResp : Nat → HttpResponse) (content : JStr) : List (JStr × HttpResponse) :=
  attachResponses sendResp 0 (sendLongChunks 2000 content)

theorem sendChunks_first_fail (sendResp : Nat → HttpResponse) :
    ∀ (chunks : List JStr) (i k : Nat), k < chunks.length →
      (∀ j, j < k → responseOk (sendResp (i + j)) = true) →
      responseOk (sendResp (i + k)) = false →
      sendChunks sendResp i chunks =
        (chunks.take (k + 1), DeliveryResult.sendError (sendResp (i + k)).status (i + k)) := by
  intro chunks
  induction chunks with
  | nil =>
    intro i k hk _ _
    simp at hk
  | cons c rest ih =>
    intro i k hk hok hfail
    cases k with
    | zero =>
      simp only [Nat.add_zero] at hfail
      simp only [sendChunks, List.take_succ_cons, List.take_zero]
      rw [if_neg (by rw [hfail]; simp)]
      simp
    | succ k =>
      have h0 : responseOk (sendResp i) = true := by
        have := hok 0 (Nat.succ_pos k)
        simpa using this
      simp only [sendChunks, List.take_succ_cons]
      rw [if_pos h0]
      have hrest := ih (i+1) k (by simpa using hk)
        (fun j hj => by
          have := hok (j+1) (by omega)
          rwa [show i + (j + 1) = i + 1 + j by omega] at this)
        (by rwa [show i + (k + 1) = i + 1 + k by omega] at hfail)
      rw [hrest]
      rw [show i + 1 + k = i + (k + 1) by omega]

/-- C7 — COUNTEREXAMPLE.  Input for the Durable Object delivery path: two
chunks are produced; the response to the first send is HTTP 500, yet the
second request is still made — `sendDiscordMessage` never checks the
response, so a failed chunk does not abort the remaining chunks. -/
def c7input : JStr := List.replicate 2000 'a' ++ '\n' :: List.replicate 5 'b'

def c7resp : Nat → HttpResponse := fun i => if i = 0 then ⟨500⟩ else ⟨204⟩

theorem c7_lines : splitLines c7input = [List.replicate 2000 'a', List.replicate 5 'b'] := by
  unfold c7input
  rw [splitLines_split_at_nl _ _ (no_nl_replicate 2000 'a' (by decide))]
  congr 1

theorem sendLongChunksGo_nil_eval (maxLength : Nat) (cur : JStr) :
    sendLongChunksGo maxLength cur [] = if cur.isEmpty then [] else [cur] := rfl

theorem sendLongChunksGo_cons_eval (maxLength : Nat) (cur line : JStr) (rest : List JStr) :
    sendLongChunksGo maxLength cur (line :: rest) =
      if maxLength < (cur ++ line ++ ['\n']).length then
        (if cur.isEmpty then [] else [cur]) ++
          (if maxLength < line.length then
            (line.take (maxLength - 3) ++ ellipsis) :: sendLongChunksGo maxLength [] rest
          else sendLongChunksGo maxLength (line ++ ['\n']) rest)
      else sendLongChunksGo maxLength (cur ++ line ++ ['\n']) rest := rfl

theorem c7_chunks : sendLongChunks 2000 c7input =
    [List.replicate 2000 'a' ++ ['\n'], List.replicate 5 'b' ++ ['\n']] := by
  unfold sendLongChunks
  rw [if_neg (by simp [c7input])]
  rw [c7_lines]
  rw [sendLongChunksGo_cons_eval]
  rw [if_pos (show 2000 < (([] : JStr) ++ List.replicate 2000 'a' ++ ['\n']).length by simp)]
  rw [if_pos (show (([] : JStr)).isEmpty = true from rfl)]
  rw [if_neg (show ¬ 2000 < (List.replicate 2000 'a').length by simp)]
  rw [List.nil_append]
  rw [sendLongChunksGo_cons_eval]
  rw [if_pos (show 2000 < ((List.replicate 2000 'a' ++ ['\n']) ++ List.replicate 5 'b'
    ++ ['\n']).length by simp)]
  rw [if_neg (show ¬ (List.replicate 2000 'a' ++ ['\n']).isEmpty = true by simp)]
  rw [if_neg (show ¬ 2000 < (List.replicate 5 'b').length by simp)]
  rw [sendLongChunksGo_nil_eval]
  rw [if_neg (show ¬ (List.replicate 5 'b' ++ ['\n']).isEmpty = true by simp)]
  rfl

/-- C7 — COUNTEREXAMPLE.  On the Durable Object delivery path the response
to the first chunk send is HTTP 500 (not 2xx), yet both chunks are posted:
`sendDiscordMessage` never checks the response, so delivery failure on a
chunk does not stop the remaining chunks. -/
theorem claim7_counterexample :
    responseOk (c7resp 0) = false ∧ (doSendsDO c7resp c7input).length = 2 := by
  constructor
  · rfl
  · unfold doSendsDO
    rw [c7_chunks]
    rfl

/-- C7 (amended): in the REST-polling delivery path (`sendDirectMessage`),
when the DM channel opens and the `k`-th chunk send is the first to receive
a non-2xx response, requests stop with that chunk — the chunks after index
`k` are never sent — and the whole digest fails with that single error.
The Durable Object path (`sendDiscordMessage`) does not inspect send
responses and keeps sending the remaining chunks. -/
theorem claim7_main (dmResp : HttpResponse) (sendResp : Nat → HttpResponse)
    (content : JStr) (k : Nat)
    (hdm : responseOk dmResp = true)
    (hk : k < (splitMessage content).length)
    (hok : ∀ j, j < k → responseOk (sendResp j) = true)
    (hfail : responseOk (sendResp k) = false) :
    sendDirectMessage dmResp sendResp content =
      ((splitMessage content).take (k + 1),
        DeliveryResult.sendError (sendResp k).status k) := by
  unfold sendDirectMessage
  rw [if_pos hdm]
  have h := sendChunks_first_fail sendResp (splitMessage content) 0 k hk
    (fun j hj => by simpa using hok j hj) (by simpa using hfail)
  simpa using h

/-- Witness for the amended C7: a single-chunk digest whose send gets a 500
response yields exactly one attempted request and a single send error. -/
theorem claim7_witness :
    sendDirectMessage ⟨200⟩ (fun _ => ⟨500⟩) ['h','i'] =
      ([['h','i']], DeliveryResult.sendError 500 0) := by
  have h := claim7_main ⟨200⟩ (fun _ => ⟨500⟩) ['h','i'] 0 (by decide) (by decide)
    (fun j hj => absurd hj (by omega)) (by decide)
  rw [h]
  rfl
